import Mathlib

/-!
Shallow embedding of the GOLD-GRAPH-GOLD price-series core
(`src/lib/gold.ts`, plus the live-API series builder and the dashboard's
unit resolver from the unnamed source parts).

Modelling conventions:
* JavaScript numbers are modelled as exact rationals (`ℚ`); epoch-millisecond
  timestamps are integers (`ℤ`), as produced by `Date.parse` on calendar-day
  strings.
* JavaScript strings are modelled as `List Char` (`js` converts a Lean string
  literal); `split`, `startsWith`, `toLowerCase` and `trim` are defined on
  character lists with the semantics of the JavaScript methods as used here.
* `Date.parse` on an ISO `YYYY-MM-DD` string is a platform primitive; it is
  modelled by `dateParse`, which validates the format and the Gregorian
  calendar and returns UTC-midnight epoch milliseconds (the proleptic
  Gregorian civil-day count times 86,400,000).  An invalid string gives `NaN`
  in JavaScript; `NaN` is not representable here, so `parseMs` collapses it to
  `0` and every theorem below restricts attention to valid dates.
* `new Date(t).toISOString().slice(0, 10)` is modelled by `isoOfTime`
  (civil-from-days plus zero padding).
* `Array.prototype.sort` with the numeric comparator used by the code is a
  stable comparison sort; it is modelled by `List.insertionSort` on the same
  key (any two comparison sorts agree on a list whose keys are pairwise
  distinct, the only situation the theorems below consider).
* Thrown exceptions are modelled by `Option`/`Except` results.
-/

/-- JavaScript string literal, as a character list. -/
def js (s : String) : List Char :=
  s.toList

/-- One calendar day in milliseconds (`DAY_MS = 24 * 60 * 60 * 1000`). -/
def DAY_MS : Int := 24 * 60 * 60 * 1000

/-- Troy-ounce-to-gram ratio (`GRAMS_PER_OUNCE = 31.1034768`). -/
def GRAMS_PER_OUNCE : ℚ := 31.1034768

/-! ### JavaScript string primitives on character lists -/

/-- `String.prototype.split` with a single-character separator. -/
def splitOnChar (sep : Char) : List Char → List (List Char)
  | [] => [[]]
  | c :: rest =>
    let r := splitOnChar sep rest
    if c = sep then [] :: r
    else
      match r with
      | [] => [[c]]
      | seg :: segs => (c :: seg) :: segs

/-- `String.prototype.startsWith`: the first argument is the string, the
second the candidate leading substring. -/
def startsWithChars : List Char → List Char → Bool
  | _, [] => true
  | [], _ :: _ => false
  | c :: cs, p :: ps => c = p && startsWithChars cs ps

/-- ASCII lower-casing of one character (`String.prototype.toLowerCase` on
the ASCII range relevant here). -/
def charToLower (c : Char) : Char :=
  if 'A' ≤ c && c ≤ 'Z' then Char.ofNat (c.toNat + 32) else c

/-- `String.prototype.toLowerCase`. -/
def toLowerChars (l : List Char) : List Char :=
  l.map charToLower

/-- Whitespace test for `String.prototype.trim`. -/
def isSpaceChar (c : Char) : Bool :=
  c = ' ' || c = '\t' || c = '\n' || c = '\r'

/-- `String.prototype.trim`. -/
def trimChars (l : List Char) : List Char :=
  ((l.dropWhile isSpaceChar).reverse.dropWhile isSpaceChar).reverse

/-! ### Calendar model (platform `Date` primitives) -/

/-- Decimal value of a digit list (callers check `Char.isDigit` first). -/
def digitsToNat (s : List Char) : Nat :=
  s.foldl (fun n c => n * 10 + (c.toNat - 48)) 0

/-- Gregorian leap-year test. -/
def isLeap (y : Nat) : Bool :=
  y % 4 = 0 && (y % 100 ≠ 0 || y % 400 = 0)

/-- Days in a month of the Gregorian calendar. -/
def daysInMonth (y m : Nat) : Nat :=
  if m = 2 then (if isLeap y then 29 else 28)
  else if m = 4 || m = 6 || m = 9 || m = 11 then 30
  else 31

/-- Days from 0000-01-01 to the first day of month `m` of year `y`
(proleptic Gregorian, year 0 is a leap year). -/
def daysBeforeMonth (y m : Nat) : Nat :=
  let cum :=
    match m with
    | 1 => 0 | 2 => 31 | 3 => 59 | 4 => 90 | 5 => 120 | 6 => 151
    | 7 => 181 | 8 => 212 | 9 => 243 | 10 => 273 | 11 => 304 | _ => 334
  if 3 ≤ m && isLeap y then cum + 1 else cum

/-- Leap years among years `0, 1, ..., y - 1` of the proleptic Gregorian
calendar. -/
def leapsBefore (y : Nat) : Nat :=
  (y + 3) / 4 - (y + 99) / 100 + (y + 399) / 400

/-- Civil-day number (days since 1970-01-01, possibly negative) of the
calendar day `y-m-d`. -/
def epochDay (y m d : Nat) : Int :=
  (365 * y + leapsBefore y + daysBeforeMonth y m + (d - 1) : Int) - 719528

/-- Format / calendar validation and numeric split of a `YYYY-MM-DD` string. -/
def parseYMD (s : List Char) : Option (Nat × Nat × Nat) :=
  match splitOnChar '-' s with
  | [y, m, d] =>
    if y.length = 4 && m.length = 2 && d.length = 2 &&
        y.all Char.isDigit && m.all Char.isDigit && d.all Char.isDigit then
      some (digitsToNat y, digitsToNat m, digitsToNat d)
    else none
  | _ => none

/-- Model of the platform `Date.parse` restricted to ISO `YYYY-MM-DD`
date-only strings: UTC midnight of the day, in epoch milliseconds; `none`
models the `NaN` result on malformed or non-calendar strings. -/
def dateParse (s : List Char) : Option Int :=
  match parseYMD s with
  | some (y, m, d) =>
    if 1 ≤ m && m ≤ 12 && 1 ≤ d && d ≤ daysInMonth y m then
      some (epochDay y m d * DAY_MS)
    else none
  | none => none

/-- Total version of `dateParse` used where the code lets a `NaN` flow on
(every theorem below assumes valid dates, where the two agree). -/
def parseMs (s : List Char) : Int :=
  (dateParse s).getD 0

/-- The character of a decimal digit. -/
def digitChar (n : Nat) : Char :=
  Char.ofNat (48 + n % 10)

/-- Two-digit zero-padded decimal form (month and day fields of
`toISOString`). -/
def pad2 (n : Nat) : List Char :=
  [digitChar (n / 10), digitChar n]

/-- Four-digit zero-padded decimal form (year field of `toISOString` for the
four-digit years arising here). -/
def pad4 (n : Nat) : List Char :=
  [digitChar (n / 1000), digitChar (n / 100), digitChar (n / 10), digitChar n]

/-- Civil day of a day number (inverse of `epochDay`;
Hinnant's civil-from-days algorithm). -/
def civilFromDay (z : Int) : Int × Int × Int :=
  let z := z + 719468
  let era := Int.fdiv z 146097
  let doe := z - era * 146097
  let yoe := (doe - doe / 1460 + doe / 36524 - doe / 146096) / 365
  let y := yoe + era * 400
  let doy := doe - (365 * yoe + yoe / 4 - yoe / 100)
  let mp := (5 * doy + 2) / 153
  let d := doy - (153 * mp + 2) / 5 + 1
  let m := mp + (if mp < 10 then 3 else -9)
  (y + (if m ≤ 2 then 1 else 0), m, d)

/-- Model of `new Date(time).toISOString().slice(0, 10)` on UTC-midnight
times: the `YYYY-MM-DD` string of the civil day containing `time`. -/
def isoOfTime (t : Int) : List Char :=
  let day := Int.fdiv t DAY_MS
  let ymd := civilFromDay day
  pad4 ymd.1.toNat ++ '-' :: pad2 ymd.2.1.toNat ++ '-' :: pad2 ymd.2.2.toNat

/-! ### Data model (`src/lib/gold.ts`) -/

/-- Tag of a range configuration (`GoldRangeKind`). -/
inductive GoldRangeKind where
  | recent
  | month
  | year
deriving DecidableEq, Repr

/-- Range configuration (`GoldRangeConfig`); the optional fields model the
optional properties of the TypeScript object type. -/
structure GoldRangeConfig where
  key : List Char
  label : List Char
  kind : GoldRangeKind
  days : Option Nat := none
  year : Option (List Char) := none
  month : Option (List Char) := none
deriving DecidableEq, Repr

/-- The default range (`recentRange = Recent with 14 days`). -/
def recentRange : GoldRangeConfig :=
  { key := js "recent", label := js "Recent", days := some 14, kind := .recent }

/-- One entry of the `goldUnits` table. -/
structure GoldUnitMeta where
  value : List Char
  label : List Char
  shortLabel : List Char
  suffix : List Char
deriving DecidableEq, Repr

/-- The `goldUnits` table (`oz` and `g`). -/
def goldUnits : List GoldUnitMeta :=
  [ { value := js "oz", label := js "Ounce", shortLabel := js "oz",
      suffix := js "USD/oz" },
    { value := js "g", label := js "Gram", shortLabel := js "g",
      suffix := js "USD/g" } ]

/-- Sparse source anchor (`GoldAnchor`). -/
structure GoldAnchor where
  date : List Char
  value : ℚ
deriving DecidableEq, Repr

/-- Densified series point (`GoldPoint`). -/
structure GoldPoint where
  date : List Char
  value : ℚ
  time : Int
deriving DecidableEq, Repr

/-- High/low statistics (`GoldStats`). -/
structure GoldStats where
  low : ℚ
  high : ℚ
deriving DecidableEq, Repr

/-- 1/7/30-day fractional changes (`GoldChanges`); `none` models `null`. -/
structure GoldChanges where
  day1 : Option ℚ
  day7 : Option ℚ
  day30 : Option ℚ
deriving DecidableEq, Repr

/-- The static snapshot file shape (`GoldSeriesFile`). -/
structure GoldSeriesFile where
  source : List Char
  updatedAt : List Char
  anchors : List GoldAnchor
deriving DecidableEq, Repr

/-- Assembled view model (`GoldData` of `src/lib/gold.ts`). -/
structure GoldData where
  latest : GoldPoint
  range : GoldRangeConfig
  unit : List Char
  unitSuffix : List Char
  sourceLabel : List Char
  rangePoints : List GoldPoint
  rangeStats : GoldStats
  yearStats : GoldStats
  lastUpdated : List Char
  changes : GoldChanges
  pointsCount : Nat
deriving DecidableEq, Repr

/-! ### Untrusted query-parameter resolution -/

/-- A Next.js query parameter value: absent, a single string, or an array of
strings (`input?: string | string[]`). -/
inductive QueryInput where
  | undef
  | str (s : List Char)
  | arr (l : List (List Char))
deriving DecidableEq, Repr

/-- The shared first step of `resolveRange` and `resolveUnit`:
`Array.isArray(input) ? input[0] : input`, with `none` for `undefined`
(also for `input[0]` of an empty array). -/
def queryFirst : QueryInput → Option (List Char)
  | .undef => none
  | .str s => some s
  | .arr l => l.head?

/-- JavaScript string truthiness for an optional string: `undefined` and the
empty string are falsy. -/
def truthy : Option (List Char) → Bool
  | none => false
  | some s => !s.isEmpty

/-- Model of `Number(s)` on the year/month substrings followed by
`Date.UTC(...)` validity: optional surrounding spaces, an optional sign and a
nonempty run of digits give a finite in-range value; anything else (letters,
empty, exotic forms) makes the subsequent `new Date(...)` invalid. -/
def jsYearNumber (s : List Char) : Option Int :=
  let t := trimChars s
  let core := if startsWithChars t (js "+") || startsWithChars t (js "-") then
    t.drop 1 else t
  if core.length ≠ 0 && core.all Char.isDigit then
    some (if startsWithChars t (js "-") then -(digitsToNat core : Int)
      else (digitsToNat core : Int))
  else none

/-- Abstraction of the `Intl` month/year label formatter
(`monthYearFormatter.format`); only its success or failure (a `RangeError` on
an invalid date) matters to any claim, never the exact text. -/
def monthYearLabel (y mo : Int) : List Char :=
  pad2 mo.toNat ++ '/' :: pad4 y.toNat

/-- `resolveRange` (`src/lib/gold.ts:97-134`).  The `.error` result models
the uncaught `RangeError` thrown by `monthYearFormatter.format` when
`Number(year)` or `Number(month)` yields an invalid `Date`. -/
def resolveRange (input : QueryInput) : Except Unit GoldRangeConfig :=
  let value := queryFirst input
  let normalized := value.map toLowerChars
  match normalized with
  | none => .ok recentRange
  | some s =>
    if s.isEmpty || s = recentRange.key then .ok recentRange
    else
      let monthBranch : Option (Except Unit GoldRangeConfig) :=
        if startsWithChars s (js "month-") then
          let parts := splitOnChar '-' s
          match parts[1]?, parts[2]? with
          | some year, some month =>
            if year.length = 4 && month.length = 2 then
              match jsYearNumber year, jsYearNumber month with
              | some y, some mo =>
                some (.ok { key := s, label := monthYearLabel y mo, kind := .month,
                            year := some year, month := some month })
              | _, _ => some (.error ())
            else none
          | _, _ => none
        else none
      match monthBranch with
      | some r => r
      | none =>
        let yearBranch : Option GoldRangeConfig :=
          if startsWithChars s (js "year-") then
            match (splitOnChar '-' s)[1]? with
            | some year =>
              if year.length = 4 then
                some { key := s, label := year, kind := .year, year := some year }
              else none
            | none => none
          else none
        match yearBranch with
        | some r => .ok r
        | none => .ok recentRange

/-- `resolveUnit` (`src/lib/gold.ts:136-140` and the identical copy in the
dashboard component): first query value matched against the `goldUnits`
table, falling back to `"oz"`. -/
def resolveUnit (input : QueryInput) : List Char :=
  let value := queryFirst input
  let found := goldUnits.find? (fun u => value = some u.value)
  (found.map GoldUnitMeta.value).getD (js "oz")

/-! ### Series densifier (`buildSeriesFromAnchors`, `src/lib/gold.ts:227-259`) -/

/-- JavaScript `Math.round`: round half toward positive infinity. -/
def jsRound (q : ℚ) : Int :=
  Int.floor (q + 1 / 2)

/-- The linear-interpolation formula of the densifier inner loop
(`start.value + (end.value - start.value) * ratio`). -/
def interp (sv ev ratio : ℚ) : ℚ :=
  sv + (ev - sv) * ratio

/-- Inner loop of the densifier for one consecutive anchor pair: emit one
point for each `day` in `0..=daySpan`, skipping day 0 when `skipDay0` (set for
every pair after the first, whose day 0 was the previous pair's last day). -/
def segPoints (startTime : Int) (sv ev : ℚ) (daySpan : Nat) (skipDay0 : Bool) :
    List GoldPoint :=
  (List.range (daySpan + 1)).filterMap fun (day : Nat) =>
    if skipDay0 && day = 0 then none
    else
      let ratio : ℚ := if daySpan = 0 then 0 else (day : ℚ) / (daySpan : ℚ)
      let time : Int := startTime + (day : Int) * DAY_MS
      some { date := isoOfTime time, value := interp sv ev ratio, time := time }

/-- The `daySpan` computation of the densifier outer loop:
`Math.max(1, Math.round((endTime - startTime) / DAY_MS))`. -/
def daySpanOf (startTime endTime : Int) : Int :=
  max 1 (jsRound (((endTime - startTime : Int) : ℚ) / ((DAY_MS : Int) : ℚ)))

/-- Outer loop of the densifier over consecutive sorted-anchor pairs.
`isFirst` distinguishes the pair at index 0, whose day 0 is not skipped. -/
def buildLoop : GoldAnchor → List GoldAnchor → Bool → List GoldPoint
  | _, [], _ => []
  | s, e :: rest, isFirst =>
    let startTime := parseMs s.date
    let endTime := parseMs e.date
    segPoints startTime s.value e.value (daySpanOf startTime endTime).toNat (!isFirst)
      ++ buildLoop e rest false

/-- The sort at the head of the densifier:
`[...anchors].sort((a, b) => Date.parse(a.date) - Date.parse(b.date))`. -/
def sortAnchors (anchors : List GoldAnchor) : List GoldAnchor :=
  List.insertionSort (fun a b => parseMs a.date ≤ parseMs b.date) anchors

/-- `buildSeriesFromAnchors` (`src/lib/gold.ts:227-259`): sort the anchors by
parsed date, special-case a single anchor (date and value passed through
unchanged), otherwise densify each consecutive pair. -/
def buildSeriesFromAnchors (anchors : List GoldAnchor) : List GoldPoint :=
  match sortAnchors anchors with
  | [a] => [{ date := a.date, value := a.value, time := parseMs a.date }]
  | a :: rest => buildLoop a rest true
  | [] => []

/-! ### Range selector (`sliceRange`, `src/lib/gold.ts:262-291`) -/

/-- `sliceRange`: keep the points inside the requested range, falling back to
the whole input whenever the filter result would be empty. -/
def sliceRange (points : List GoldPoint) (range : GoldRangeConfig)
    (latest : GoldPoint) : List GoldPoint :=
  if points.isEmpty then []
  else if range.kind = .recent then
    let rangeDays : Nat := range.days.getD 14
    let cutoff := latest.time - (rangeDays : Int) * DAY_MS
    let sliced := points.filter fun point => cutoff ≤ point.time
    if sliced.isEmpty then points else sliced
  else if range.kind = .month && truthy range.year && truthy range.month then
    let pre := range.year.getD [] ++ '-' :: range.month.getD []
    let sliced := points.filter fun point => startsWithChars point.date pre
    if sliced.isEmpty then points else sliced
  else if range.kind = .year && truthy range.year then
    let year := range.year.getD []
    let sliced := points.filter fun point => startsWithChars point.date year
    if sliced.isEmpty then points else sliced
  else points

/-! ### Statistics engine (`computeChange`, `computeHighLow`) -/

/-- The backward scan of `computeChange` (`for index from the last index
down to 0, first point with time <= target`): the last list element
satisfying the bound. -/
def findPrior (points : List GoldPoint) (target : Int) : Option GoldPoint :=
  points.reverse.find? fun p => p.time ≤ target

/-- `computeChange` (`src/lib/gold.ts:293-314`): fractional change of the
last point against the most recent point at least `daysBack` days older,
`none` when the series is too short. -/
def computeChange (points : List GoldPoint) (daysBack : Nat) : Option ℚ :=
  match points.getLast? with
  | none => none
  | some latest =>
    let target := latest.time - (daysBack : Int) * DAY_MS
    match findPrior points target with
    | none => none
    | some prior => some ((latest.value - prior.value) / prior.value)

/-- One step of the `computeHighLow` scan. -/
def hlStep (acc : GoldStats) (p : GoldPoint) : GoldStats :=
  { low := if p.value < acc.low then p.value else acc.low,
    high := if acc.high < p.value then p.value else acc.high }

/-- `computeHighLow` (`src/lib/gold.ts:316-335`): single pass computing the
min and max of `value`, seeded from the first point; `none` on empty input. -/
def computeHighLow (points : List GoldPoint) : Option GoldStats :=
  match points with
  | [] => none
  | p :: _ =>
    some (points.foldl hlStep { low := p.value, high := p.value })

/-! ### Series assembler (`getGoldData`, `src/lib/gold.ts:170-211`) -/

/-- `loadSeriesFile` (`src/lib/gold.ts:213-225`): normalize the snapshot,
failing (`none`, modelling the thrown error) when it has no anchors; the
empty-string checks model JavaScript `||` falsiness. -/
def loadSeriesFile (file : GoldSeriesFile) : Option GoldSeriesFile :=
  if file.anchors.isEmpty then none
  else
    some { source := if file.source.isEmpty then js "Local snapshot" else file.source,
           updatedAt :=
             if file.updatedAt.isEmpty then
               ((file.anchors.getLast?.map GoldAnchor.date).getD [])
             else file.updatedAt,
           anchors := file.anchors }

/-- The per-unit multiplier of the assembler
(`unit === "g" ? 1 / GRAMS_PER_OUNCE : 1`). -/
def unitMultiplier (unit : List Char) : ℚ :=
  if unit = js "g" then 1 / GRAMS_PER_OUNCE else 1

/-- `getGoldData` (`src/lib/gold.ts:170-211`), with the imported JSON
snapshot made an explicit argument; `none` models the two thrown errors
(empty snapshot, empty densified series). -/
def getGoldData (file : GoldSeriesFile) (range : GoldRangeConfig)
    (unit : List Char) : Option GoldData :=
  match loadSeriesFile file with
  | none => none
  | some seriesFile =>
    let series := buildSeriesFromAnchors seriesFile.anchors
    let unitMeta := (goldUnits.find? fun option => option.value = unit).getD
      (goldUnits.get ⟨0, by decide⟩)
    let points := series.map fun point =>
      { point with value := point.value * unitMultiplier unit }
    match points.getLast? with
    | none => none
    | some latest =>
      let lastUpdated := if seriesFile.updatedAt.isEmpty then latest.date
        else seriesFile.updatedAt
      let rangePoints := sliceRange points range latest
      let yearPoints := sliceRange points { recentRange with days := some 365 } latest
      let rangeStats := (computeHighLow rangePoints).getD
        { low := latest.value, high := latest.value }
      let yearStats := (computeHighLow yearPoints).getD rangeStats
      some { latest := latest
             range := range
             unit := unit
             unitSuffix := unitMeta.suffix
             sourceLabel := seriesFile.source
             rangePoints := rangePoints
             rangeStats := rangeStats
             yearStats := yearStats
             lastUpdated := lastUpdated
             changes := { day1 := computeChange points 1
                          day7 := computeChange points 7
                          day30 := computeChange points 30 }
             pointsCount := rangePoints.length }

/-! ### Live-API series builder (`src/unnamed/part_003`) -/

/-- `convertPrice` (`src/unnamed/part_003:83-85`): per-ounce price to the
requested unit. -/
def convertPrice (pricePerOz : ℚ) (unit : List Char) : ℚ :=
  if unit = js "g" then pricePerOz / GRAMS_PER_OUNCE else pricePerOz

/-- The gap-filling loop of `fetchGoldSeries`
(`src/unnamed/part_003:206-216`): observed values are kept and become the new
carry; missing days copy the carry, which starts at the first observed
value. -/
def fillForward : List (Option ℚ) → ℚ → List ℚ
  | [], _ => []
  | some v :: rest, _ => v :: fillForward rest v
  | none :: rest, lastKnown => lastKnown :: fillForward rest lastKnown

/-- The per-day value assembly of `fetchGoldSeries`
(`src/unnamed/part_003:193-224`) as a function of the merged per-day USD
mapping and the window's date list: look each day up, fail (`none`, modelling
the thrown error) when no day was observed, and otherwise forward-fill. -/
def emittedValues (perDayUsd : List Char → Option ℚ) (dates : List (List Char)) :
    Option (List ℚ) :=
  let rawValues := dates.map perDayUsd
  match rawValues.findSome? id with
  | none => none
  | some firstKnown => some (fillForward rawValues firstKnown)

/-- Specification-side comparison function for the forward fill: the
observed rate of the day itself when present, otherwise the nearest earlier
observed rate (`none` on a leading day before the first observation). -/
def nearestEarlierRate (perDayUsd : List Char → Option ℚ)
    (dates : List (List Char)) (i : Nat) : Option ℚ :=
  ((dates.take (i + 1)).reverse).findSome? perDayUsd

/-! ### Helper lemmas -/

instance : DecidableEq (Except Unit GoldRangeConfig) := fun a b =>
  match a, b with
  | .ok x, .ok y =>
    decidable_of_iff (x = y) ⟨fun h => h ▸ rfl, fun h => Except.ok.inj h⟩
  | .error u, .error v => isTrue (by cases u; cases v; rfl)
  | .ok _, .error _ => isFalse (fun h => Except.noConfusion h)
  | .error _, .ok _ => isFalse (fun h => Except.noConfusion h)

/-- A list whose image under `f` has no duplicates is pairwise
`f`-distinguishable. -/
lemma pairwise_ne_of_nodup_map {α β : Type} {f : α → β} {l : List α}
    (h : (l.map f).Nodup) : l.Pairwise (fun a b => f a ≠ f b) := by
  induction l with
  | nil => exact List.Pairwise.nil
  | cons a l ih =>
    rw [List.map_cons, List.nodup_cons] at h
    refine List.Pairwise.cons (fun b hb hfab => h.1 ?_) (ih h.2)
    rw [hfab]
    exact List.mem_map_of_mem f hb

/-- A `filterMap` that never drops anything is a `map`. -/
lemma filterMap_some_eq_map {α β : Type} (f : α → β) (l : List α) :
    l.filterMap (fun a => some (f a)) = l.map f := by
  induction l with
  | nil => rfl
  | cons a l ih => simp [List.filterMap_cons, ih]

/-- The low accumulator of the `computeHighLow` scan only ever moves down,
stays a lower bound of everything scanned, and is either the seed or one of
the scanned values (and symmetrically for the high accumulator). -/
lemma foldl_hlStep_spec (l : List GoldPoint) (acc : GoldStats) :
    (l.foldl hlStep acc).low ≤ acc.low ∧ (∀ p ∈ l, (l.foldl hlStep acc).low ≤ p.value) ∧
    ((l.foldl hlStep acc).low = acc.low ∨ (l.foldl hlStep acc).low ∈ l.map GoldPoint.value) ∧
    acc.high ≤ (l.foldl hlStep acc).high ∧ (∀ p ∈ l, p.value ≤ (l.foldl hlStep acc).high) ∧
    ((l.foldl hlStep acc).high = acc.high ∨ (l.foldl hlStep acc).high ∈ l.map GoldPoint.value) := by
  induction l generalizing acc with
  | nil => simp
  | cons p l ih =>
    simp only [List.foldl_cons, List.map_cons]
    obtain ⟨h1, h2, h3, h4, h5, h6⟩ := ih (hlStep acc p)
    have hlowle : (hlStep acc p).low ≤ acc.low := by
      simp only [hlStep]
      split <;> [exact le_of_lt (by assumption); exact le_refl _]
    have hlowp : (hlStep acc p).low ≤ p.value := by
      simp only [hlStep]
      split <;> [exact le_refl _; exact le_of_not_lt (by assumption)]
    have hhighge : acc.high ≤ (hlStep acc p).high := by
      simp only [hlStep]
      split <;> [exact le_of_lt (by assumption); exact le_refl _]
    have hhighp : p.value ≤ (hlStep acc p).high := by
      simp only [hlStep]
      split <;> [exact le_refl _; exact le_of_not_lt (by assumption)]
    have hlowcases : (hlStep acc p).low = acc.low ∨ (hlStep acc p).low = p.value := by
      simp only [hlStep]
      split <;> [exact Or.inr rfl; exact Or.inl rfl]
    have hhighcases : (hlStep acc p).high = acc.high ∨ (hlStep acc p).high = p.value := by
      simp only [hlStep]
      split <;> [exact Or.inr rfl; exact Or.inl rfl]
    refine ⟨le_trans h1 hlowle, ?_, ?_, le_trans hhighge h4, ?_, ?_⟩
    · intro q hq
      rcases List.mem_cons.mp hq with rfl | hq
      · exact le_trans h1 hlowp
      · exact h2 q hq
    · rcases h3 with h3 | h3
      · rcases hlowcases with hc | hc
        · exact Or.inl (h3.trans hc)
        · rw [h3, hc]
          exact Or.inr (List.mem_cons_self _ _)
      · exact Or.inr (List.mem_cons_of_mem _ h3)
    · intro q hq
      rcases List.mem_cons.mp hq with rfl | hq
      · exact le_trans hhighp h4
      · exact h5 q hq
    · rcases h6 with h6 | h6
      · rcases hhighcases with hc | hc
        · exact Or.inl (h6.trans hc)
        · rw [h6, hc]
          exact Or.inr (List.mem_cons_self _ _)
      · exact Or.inr (List.mem_cons_of_mem _ h6)

/-- Full characterization of `computeHighLow` on a non-empty list. -/
lemma computeHighLow_spec (points : List GoldPoint) (s : GoldStats)
    (h : computeHighLow points = some s) :
    s.low ∈ points.map GoldPoint.value ∧ (∀ p ∈ points, s.low ≤ p.value) ∧
    s.high ∈ points.map GoldPoint.value ∧ (∀ p ∈ points, p.value ≤ s.high) := by
  match points with
  | [] => simp [computeHighLow] at h
  | p :: l =>
    simp only [computeHighLow, Option.some.injEq] at h
    have spec := foldl_hlStep_spec (p :: l) { low := p.value, high := p.value }
    rw [h] at spec
    obtain ⟨h1, h2, h3, h4, h5, h6⟩ := spec
    refine ⟨?_, h2, ?_, h5⟩
    · rcases h3 with h3 | h3
      · exact h3 ▸ List.mem_map_of_mem GoldPoint.value (List.mem_cons_self p l)
      · exact h3
    · rcases h6 with h6 | h6
      · exact h6 ▸ List.mem_map_of_mem GoldPoint.value (List.mem_cons_self p l)
      · exact h6

/-- `computeHighLow` answers `none` exactly on the empty list. -/
lemma computeHighLow_eq_none_iff (points : List GoldPoint) :
    computeHighLow points = none ↔ points = [] := by
  cases points <;> simp [computeHighLow]

/-- `sliceRange` never shrinks a non-empty list to nothing: every branch
returns either a filter result checked non-empty or the whole input. -/
lemma sliceRange_ne_nil (points : List GoldPoint) (range : GoldRangeConfig)
    (latest : GoldPoint) (h : points ≠ []) :
    sliceRange points range latest ≠ [] := by
  have hne : points.isEmpty = false := by
    cases points
    · exact absurd rfl h
    · rfl
  unfold sliceRange
  rw [hne]
  simp only [Bool.false_eq_true, if_false]
  split
  · split
    · exact h
    · next hs => exact fun hnil => hs (by rw [hnil]; rfl)
  split
  · split
    · exact h
    · next hs => exact fun hnil => hs (by rw [hnil]; rfl)
  split
  · split
    · exact h
    · next hs => exact fun hnil => hs (by rw [hnil]; rfl)
  exact h

/-! ### Claim theorems: unit conversion, statistics, range selector, parsers -/

/-- C6: unit conversion from a per-ounce price is the identity for `"oz"`
and exact division by 31.1034768 for `"g"`, in both the `convertPrice` form
(division) and the assembler's `unitMultiplier` form (multiplication by the
reciprocal). -/
theorem C6_unit_conversion (x : ℚ) :
    convertPrice x (js "oz") = x ∧
    x * unitMultiplier (js "oz") = x ∧
    convertPrice x (js "g") = x / GRAMS_PER_OUNCE ∧
    x * unitMultiplier (js "g") = x / GRAMS_PER_OUNCE := by
  refine ⟨?_, ?_, ?_, ?_⟩
  · simp only [convertPrice]
    rw [if_neg (by decide)]
  · simp only [unitMultiplier]
    rw [if_neg (by decide), mul_one]
  · simp [convertPrice]
  · simp [unitMultiplier, mul_one_div, div_eq_mul_inv]

/-- C9: `computeHighLow` is `none` exactly on empty input; on any other
input it returns the minimum and maximum of the values; over the values
`[100, 80, 120, 95]` it returns low 80 and high 120. -/
theorem C9_computeHighLow :
    (∀ points : List GoldPoint, computeHighLow points = none ↔ points = []) ∧
    (∀ (points : List GoldPoint) (s : GoldStats), computeHighLow points = some s →
      s.low ∈ points.map GoldPoint.value ∧ (∀ p ∈ points, s.low ≤ p.value) ∧
      s.high ∈ points.map GoldPoint.value ∧ (∀ p ∈ points, p.value ≤ s.high)) ∧
    computeHighLow [⟨js "2024-01-01", 100, 0⟩, ⟨js "2024-01-02", 80, 86400000⟩,
        ⟨js "2024-01-03", 120, 172800000⟩, ⟨js "2024-01-04", 95, 259200000⟩]
      = some { low := 80, high := 120 } := by
  exact ⟨computeHighLow_eq_none_iff, computeHighLow_spec, by decide⟩

/-- C9 witness: the characterization applied to the four-value example list
of the specification. -/
theorem C9_computeHighLow_witness :
    ({ low := 80, high := 120 } : GoldStats).low ∈
      ([⟨js "2024-01-01", 100, 0⟩, ⟨js "2024-01-02", 80, 86400000⟩,
        ⟨js "2024-01-03", 120, 172800000⟩, ⟨js "2024-01-04", 95, 259200000⟩] :
          List GoldPoint).map GoldPoint.value := by
  exact (C9_computeHighLow.2.1 _ _ (by decide)).1

/-- C4: on a non-empty input list, `sliceRange` never returns the empty
list; whenever a range filter matches nothing it falls back to the full
input. -/
theorem C4_sliceRange_ne_nil (points : List GoldPoint) (range : GoldRangeConfig)
    (latest : GoldPoint) (h : points ≠ []) :
    sliceRange points range latest ≠ [] :=
  sliceRange_ne_nil points range latest h

/-- C4 witness: a one-point list sliced by a month range with no matching
data still yields a non-empty result. -/
theorem C4_sliceRange_ne_nil_witness :
    sliceRange [⟨js "2024-01-01", 2000, 1704067200000⟩]
      { key := js "month-2023-05", label := js "May 2023", kind := .month,
        year := some (js "2023"), month := some (js "05") }
      ⟨js "2024-01-01", 2000, 1704067200000⟩ ≠ [] :=
  C4_sliceRange_ne_nil _ _ _ (by decide)

/-- C10: `resolveUnit` is total over untrusted input and always yields a
valid unit, falling back to `"oz"` whenever the first value of the query
parameter is not a recognized unit. -/
theorem C10_resolveUnit (input : QueryInput) :
    (resolveUnit input = js "oz" ∨ resolveUnit input = js "g") ∧
    (queryFirst input ≠ some (js "oz") → queryFirst input ≠ some (js "g") →
      resolveUnit input = js "oz") := by
  by_cases hoz : queryFirst input = some (js "oz")
  · constructor
    · left
      simp [resolveUnit, goldUnits, hoz, List.find?]
    · intro h
      exact absurd hoz h
  · by_cases hg : queryFirst input = some (js "g")
    · constructor
      · right
        simp [resolveUnit, goldUnits, hg, List.find?, js]
      · intro _ h
        exact absurd hg h
    · have hnone : goldUnits.find? (fun u => queryFirst input = some u.value) = none := by
        rw [List.find?_eq_none]
        intro u hu
        simp only [goldUnits, List.mem_cons, List.mem_singleton] at hu
        rcases hu with hu | hu | hu
        · simp [hu, hoz]
        · simp [hu, hg]
        · exact absurd hu (List.not_mem_nil u)
      refine ⟨Or.inl ?_, fun _ _ => ?_⟩ <;>
        simp [resolveUnit, hnone]

/-- C10 witness: the unrecognized query value `"kg"` falls back to `"oz"`. -/
theorem C10_resolveUnit_witness : resolveUnit (.str (js "kg")) = js "oz" :=
  (C10_resolveUnit (.str (js "kg"))).2 (by decide) (by decide)

/-- C1 (code bug): `resolveRange` checks only the length of the year and
month segments, never that they are digits, so `"year-abcd"` produces a
year-range configuration rather than the default recent range, and
`"month-abcd-12"` reaches the month/year label formatter with an invalid
date and throws instead of falling back. -/
theorem C1_resolveRange_accepts_nondigit :
    resolveRange (.str (js "year-abcd"))
      = .ok { key := js "year-abcd", label := js "abcd", kind := .year,
              year := some (js "abcd") } ∧
    resolveRange (.str (js "year-abcd")) ≠ .ok recentRange ∧
    resolveRange (.str (js "month-abcd-12")) = .error () := by
  refine ⟨by decide, by decide, by decide⟩

/-! ### Helper lemmas for `computeChange` -/

/-- The day length is positive. -/
lemma DAY_MS_pos : 0 < DAY_MS := by norm_num [DAY_MS]

/-- When every point is newer than the target, the backward scan finds
nothing. -/
lemma findPrior_none (points : List GoldPoint) (target : Int)
    (h : ∀ p ∈ points, target < p.time) : findPrior points target = none := by
  unfold findPrior
  rw [List.find?_eq_none]
  intro p hp
  rw [List.mem_reverse] at hp
  simpa using not_le.mpr (h p hp)

/-- On a list with strictly decreasing times, the first element at or below
the bound is the unique maximal one. -/
lemma find?_last_desc :
    ∀ (l : List GoldPoint) (target : Int) (prior : GoldPoint),
      l.Pairwise (fun a b => b.time < a.time) → prior ∈ l → prior.time ≤ target →
      (∀ q ∈ l, q.time ≤ target → q.time ≤ prior.time) →
      l.find? (fun p => p.time ≤ target) = some prior := by
  intro l
  induction l with
  | nil => intro target prior _ hmem; cases hmem
  | cons x rest ih =>
    intro target prior hdesc hmem hle hmax
    rw [List.pairwise_cons] at hdesc
    by_cases hx : x.time ≤ target
    · have hpx : prior = x := by
        rcases List.mem_cons.mp hmem with rfl | hm
        · rfl
        · exact absurd (hmax x (List.mem_cons_self x rest) hx)
            (not_le.mpr (hdesc.1 prior hm))
      rw [List.find?_cons_of_pos _ (by simpa using hx), hpx]
    · have hm : prior ∈ rest := by
        rcases List.mem_cons.mp hmem with rfl | hm
        · exact absurd hle hx
        · exact hm
      rw [List.find?_cons_of_neg _ (by simpa using hx)]
      exact ih target prior hdesc.2 hm hle
        (fun q hq hqle => hmax q (List.mem_cons_of_mem x hq) hqle)

/-- In a gap-free daily chain the last point is at most `length - 1` days
after any point. -/
lemma chain_last_lb :
    ∀ (points : List GoldPoint) (latest : GoldPoint),
      List.Chain' (fun a b => b.time = a.time + DAY_MS) points →
      points.getLast? = some latest →
      ∀ p ∈ points, latest.time ≤ p.time + ((points.length - 1 : Nat) : Int) * DAY_MS := by
  intro points
  induction points with
  | nil => intro latest _ hlast; cases hlast
  | cons x rest ih =>
    intro latest hchain hlast p hp
    cases rest with
    | nil =>
      rcases List.mem_singleton.mp hp with rfl
      simp only [List.getLast?_singleton, Option.some.injEq] at hlast
      subst hlast
      simp
    | cons y rest2 =>
      rw [List.chain'_cons] at hchain
      have hlast2 : (y :: rest2).getLast? = some latest := by
        rw [← hlast, List.getLast?_cons_cons]
      have hstep := ih latest hchain.2 hlast2
      have hlen : ((x :: y :: rest2).length - 1 : Nat) = rest2.length + 1 := by
        simp
      have hlen2 : ((y :: rest2).length - 1 : Nat) = rest2.length := by
        simp
      rcases List.mem_cons.mp hp with rfl | hp2
      · have hy := hstep y (List.mem_cons_self y rest2)
        rw [hlen2] at hy
        rw [hlen, hchain.1] at *
        push_cast at *
        linarith
      · have hq := hstep p hp2
        rw [hlen2] at hq
        rw [hlen]
        have hd : (rest2.length : Int) * DAY_MS ≤ ((rest2.length : Int) + 1) * DAY_MS := by
          have := le_of_lt DAY_MS_pos
          nlinarith
        push_cast at *
        linarith

/-- C3: with the series sorted by time, `computeChange` returns `none`
exactly when no point is at least `daysBack` days older than the last one,
and otherwise divides against the most recent sufficiently old point; a
gap-free daily series of at most `daysBack` points always yields `none`. -/
theorem C3_computeChange (points : List GoldPoint) (daysBack : Nat)
    (latest : GoldPoint)
    (hsorted : points.Pairwise (fun a b => a.time < b.time))
    (hlast : points.getLast? = some latest) :
    ((∀ p ∈ points, latest.time - (daysBack : Int) * DAY_MS < p.time) →
      computeChange points daysBack = none) ∧
    (∀ prior ∈ points, prior.time ≤ latest.time - (daysBack : Int) * DAY_MS →
      (∀ q ∈ points, q.time ≤ latest.time - (daysBack : Int) * DAY_MS →
        q.time ≤ prior.time) →
      computeChange points daysBack
        = some ((latest.value - prior.value) / prior.value)) ∧
    (List.Chain' (fun a b => b.time = a.time + DAY_MS) points →
      points.length ≤ daysBack → computeChange points daysBack = none) := by
  refine ⟨fun hnone => ?_, fun prior hmem hle hmax => ?_, fun hchain hlen => ?_⟩
  · simp only [computeChange, hlast, findPrior_none points _ hnone]
  · have hfind : findPrior points (latest.time - (daysBack : Int) * DAY_MS)
        = some prior := by
      unfold findPrior
      exact find?_last_desc points.reverse _ prior
        (List.pairwise_reverse.mpr hsorted)
        (List.mem_reverse.mpr hmem) hle
        (fun q hq => hmax q (List.mem_reverse.mp hq))
    simp only [computeChange, hlast, hfind]
  · have hbound := chain_last_lb points latest hchain hlast
    have hnone : ∀ p ∈ points, latest.time - (daysBack : Int) * DAY_MS < p.time := by
      intro p hp
      have h1 := hbound p hp
      have hlenpos : 1 ≤ points.length := by
        cases points
        · cases hlast
        · simp
      have h2 : ((points.length - 1 : Nat) : Int) ≤ (daysBack : Int) - 1 := by
        omega
      have h3 : ((points.length - 1 : Nat) : Int) * DAY_MS
          ≤ ((daysBack : Int) - 1) * DAY_MS :=
        mul_le_mul_of_nonneg_right h2 (le_of_lt DAY_MS_pos)
      have hd := DAY_MS_pos
      nlinarith
    simp only [computeChange, hlast, findPrior_none points _ hnone]

/-- C3 witness: a three-point gap-free daily series asked for a 30-day
change yields `none`. -/
theorem C3_computeChange_witness :
    computeChange [⟨js "2024-01-01", 2000, 1704067200000⟩,
      ⟨js "2024-01-02", 2010, 1704153600000⟩,
      ⟨js "2024-01-03", 2020, 1704240000000⟩] 30 = none :=
  (C3_computeChange _ 30 ⟨js "2024-01-03", 2020, 1704240000000⟩
    (by decide) (by decide)).2.2 (by norm_num [List.chain'_cons, DAY_MS]) (by decide)

/-! ### Helper lemmas for the live-API forward fill -/

/-- `findSome?` composed with a `map`. -/
lemma findSome?_map_eq {α β γ : Type} (f : α → β) (g : β → Option γ)
    (l : List α) : (l.map f).findSome? g = l.findSome? (fun a => g (f a)) := by
  induction l with
  | nil => rfl
  | cons a l ih =>
    simp only [List.map_cons, List.findSome?]
    cases g (f a) <;> simp [ih]

/-- `findSome?` over an appended list: the left part wins when it finds
something. -/
lemma findSome?_append_eq {α β : Type} (f : α → Option β) (l1 l2 : List α) :
    (l1 ++ l2).findSome? f =
      match l1.findSome? f with
      | some b => some b
      | none => l2.findSome? f := by
  induction l1 with
  | nil => simp [List.findSome?]
  | cons a l ih =>
    simp only [List.cons_append, List.findSome?]
    cases f a <;> simp [ih]

/-- The forward fill keeps the length of the window. -/
lemma fillForward_length (raws : List (Option ℚ)) (carry : ℚ) :
    (fillForward raws carry).length = raws.length := by
  induction raws generalizing carry with
  | nil => rfl
  | cons r rest ih => cases r <;> simp [fillForward, ih]

/-- Pointwise characterization of the forward fill: position `i` holds the
most recent observed value at or before `i`, and the carry seed when there is
none. -/
lemma fillForward_get (raws : List (Option ℚ)) (carry : ℚ) (i : Nat)
    (hi : i < raws.length) :
    (fillForward raws carry)[i]?
      = some ((((raws.take (i + 1)).reverse).findSome? id).getD carry) := by
  induction raws generalizing carry i with
  | nil => cases hi
  | cons r rest ih =>
    cases i with
    | zero =>
      cases r with
      | none => simp [fillForward, List.findSome?]
      | some v => simp [fillForward, List.findSome?]
    | succ i =>
      have hi2 : i < rest.length := by simpa using hi
      have htake : ((r :: rest).take (i + 1 + 1)).reverse
          = (rest.take (i + 1)).reverse ++ [r] := by
        simp [List.take_succ_cons]
      rw [htake, findSome?_append_eq]
      cases r with
      | none =>
        have hstep : (fillForward (none :: rest) carry)[i + 1]?
            = (fillForward rest carry)[i]? := by
          simp [fillForward]
        rw [hstep, ih carry i hi2]
        cases hfs : (rest.take (i + 1)).reverse.findSome? id <;>
          simp [List.findSome?]
      | some v =>
        have hstep : (fillForward (some v :: rest) carry)[i + 1]?
            = (fillForward rest v)[i]? := by
          simp [fillForward]
        rw [hstep, ih v i hi2]
        cases hfs : (rest.take (i + 1)).reverse.findSome? id <;>
          simp [List.findSome?]

/-- C8: with at least one observed day in the window, the live-API series
builder emits, for every day of the window, the observed rate of that day
when present, otherwise the nearest earlier observed rate, and the first
observed rate for the leading days before any observation. -/
theorem C8_forward_fill (perDayUsd : List Char → Option ℚ)
    (dates : List (List Char)) (firstKnown : ℚ) (filled : List ℚ)
    (hfk : (dates.map perDayUsd).findSome? id = some firstKnown)
    (hfill : emittedValues perDayUsd dates = some filled) :
    filled.length = dates.length ∧
    ∀ i, i < dates.length →
      filled[i]? = some ((nearestEarlierRate perDayUsd dates i).getD firstKnown) := by
  have hfilled : filled = fillForward (dates.map perDayUsd) firstKnown := by
    simp only [emittedValues, hfk] at hfill
    exact (Option.some.inj hfill).symm
  subst hfilled
  constructor
  · rw [fillForward_length]
    exact List.length_map dates perDayUsd
  · intro i hi
    have hi2 : i < (dates.map perDayUsd).length := by simpa using hi
    rw [fillForward_get _ _ _ hi2]
    congr 1
    unfold nearestEarlierRate
    rw [← List.map_take, ← List.map_reverse, findSome?_map_eq]
    rfl

/-- C8 witness: a five-day window observed only on days 2 and 4 fills as
`[5, 5, 5, 9, 9]`, and day 3 (index 2) carries day 2's rate. -/
theorem C8_forward_fill_witness :
    ([5, 5, 5, 9, 9] : List ℚ)[2]?
      = some ((nearestEarlierRate
          (fun d => if d = js "2024-01-02" then some 5
            else if d = js "2024-01-04" then some 9 else none)
          [js "2024-01-01", js "2024-01-02", js "2024-01-03",
           js "2024-01-04", js "2024-01-05"] 2).getD 5) :=
  (C8_forward_fill _ _ 5 [5, 5, 5, 9, 9] (by decide) (by decide)).2 2 (by decide)

/-! ### Helper lemmas for the densifier -/

/-- `Math.round` of an exact integer is that integer. -/
lemma jsRound_intCast (n : Int) : jsRound ((n : ℚ)) = n := by
  unfold jsRound
  rw [add_comm, Int.floor_add_int]
  norm_num

/-- `DAY_MS` is not zero. -/
lemma DAY_MS_ne : DAY_MS ≠ 0 :=
  ne_of_gt DAY_MS_pos

/-- On two UTC midnights in order, the densifier's span is the exact number
of days between them. -/
lemma daySpanOf_mul (a b : Int) (h : a < b) :
    daySpanOf (a * DAY_MS) (b * DAY_MS) = b - a := by
  unfold daySpanOf
  have hcast : ((b * DAY_MS - a * DAY_MS : Int) : ℚ) / ((DAY_MS : Int) : ℚ)
      = ((b - a : Int) : ℚ) := by
    have hd : ((DAY_MS : Int) : ℚ) ≠ 0 := by
      norm_num [DAY_MS]
    field_simp
    ring
  rw [hcast, jsRound_intCast]
  exact max_eq_right (by omega)

/-- Explicit form of a no-skip densifier segment. -/
lemma segPoints_false_eq (st : Int) (sv ev : ℚ) (n : Nat) :
    segPoints st sv ev n false = (List.range (n + 1)).map (fun day =>
      { date := isoOfTime (st + (day : Int) * DAY_MS),
        value := interp sv ev (if n = 0 then 0 else (day : ℚ) / (n : ℚ)),
        time := st + (day : Int) * DAY_MS }) := by
  unfold segPoints
  rw [← filterMap_some_eq_map]
  simp only [Bool.false_and, Bool.false_eq_true, if_false]

/-- Explicit form of a skip-day-0 densifier segment. -/
lemma segPoints_true_eq (st : Int) (sv ev : ℚ) (n : Nat) :
    segPoints st sv ev n true = (List.range n).map (fun j =>
      { date := isoOfTime (st + ((j + 1 : Nat) : Int) * DAY_MS),
        value := interp sv ev (if n = 0 then 0 else ((j + 1 : Nat) : ℚ) / (n : ℚ)),
        time := st + ((j + 1 : Nat) : Int) * DAY_MS }) := by
  unfold segPoints
  rw [List.range_succ_eq_map, List.filterMap_cons]
  simp only [Bool.true_and, decide_eq_true_eq, if_pos rfl]
  rw [List.filterMap_map, ← filterMap_some_eq_map]
  apply List.filterMap_congr
  intro j _
  simp only [Function.comp_apply, Nat.succ_eq_add_one, Bool.true_and,
    decide_eq_true_eq]
  rw [if_neg (Nat.succ_ne_zero j)]

/-- Times of a no-skip segment. -/
lemma segPoints_false_times (st : Int) (sv ev : ℚ) (n : Nat) :
    (segPoints st sv ev n false).map GoldPoint.time
      = (List.range (n + 1)).map (fun (day : Nat) => st + (day : Int) * DAY_MS) := by
  rw [segPoints_false_eq, List.map_map]
  rfl

/-- Times of a skip-day-0 segment. -/
lemma segPoints_true_times (st : Int) (sv ev : ℚ) (n : Nat) :
    (segPoints st sv ev n true).map GoldPoint.time
      = (List.range n).map (fun (j : Nat) => st + ((j + 1 : Nat) : Int) * DAY_MS) := by
  rw [segPoints_true_eq, List.map_map]
  rfl

/-- The interpolation formula is exact at its two boundary ratios. -/
lemma interp_boundary (sv ev : ℚ) : interp sv ev 0 = sv ∧ interp sv ev 1 = ev := by
  unfold interp
  constructor <;> ring

/-- The day-0 point of a no-skip segment carries the start value at the
start time. -/
lemma segPoints_false_mem_start (st : Int) (sv ev : ℚ) (n : Nat) :
    ∃ p ∈ segPoints st sv ev n false, p.time = st ∧ p.value = sv := by
  rw [segPoints_false_eq]
  refine ⟨_, List.mem_map_of_mem _ (List.mem_range.mpr (Nat.succ_pos n)), ?_, ?_⟩
  · simp
  · show interp sv ev (if n = 0 then 0 else ((0 : Nat) : ℚ) / (n : ℚ)) = sv
    have h0 : (if n = 0 then (0 : ℚ) else ((0 : Nat) : ℚ) / (n : ℚ)) = 0 := by
      split <;> simp
    rw [h0]
    exact (interp_boundary sv ev).1

/-- The last point of a no-skip segment carries the end value at the end
time. -/
lemma segPoints_false_mem_last (st : Int) (sv ev : ℚ) (n : Nat) (hn : n ≠ 0) :
    ∃ p ∈ segPoints st sv ev n false, p.time = st + (n : Int) * DAY_MS ∧ p.value = ev := by
  rw [segPoints_false_eq]
  refine ⟨_, List.mem_map_of_mem _ (List.mem_range.mpr (Nat.lt_succ_self n)), rfl, ?_⟩
  show interp sv ev (if n = 0 then 0 else ((n : Nat) : ℚ) / (n : ℚ)) = ev
  rw [if_neg hn, div_self (by exact_mod_cast hn)]
  exact (interp_boundary sv ev).2

/-- The last point of a skip-day-0 segment carries the end value at the end
time. -/
lemma segPoints_true_mem_last (st : Int) (sv ev : ℚ) (n : Nat) (hn : n ≠ 0) :
    ∃ p ∈ segPoints st sv ev n true, p.time = st + (n : Int) * DAY_MS ∧ p.value = ev := by
  rw [segPoints_true_eq]
  have hmem : n - 1 ∈ List.range n := List.mem_range.mpr (by omega)
  refine ⟨_, List.mem_map_of_mem _ hmem, ?_, ?_⟩
  · show st + ((n - 1 + 1 : Nat) : Int) * DAY_MS = st + (n : Int) * DAY_MS
    congr 2
    omega
  · show interp sv ev (if n = 0 then 0 else ((n - 1 + 1 : Nat) : ℚ) / (n : ℚ)) = ev
    have hn1 : (n - 1 + 1 : Nat) = n := by omega
    rw [if_neg hn, hn1, div_self (by exact_mod_cast hn)]
    exact (interp_boundary sv ev).2

/-- A successful parse is a whole number of days in milliseconds. -/
lemma dateParse_mul (s : List Char) (t : Int) (h : dateParse s = some t) :
    ∃ d : Int, t = d * DAY_MS := by
  unfold dateParse at h
  cases hp : parseYMD s with
  | none => rw [hp] at h; cases h
  | some ymd =>
    obtain ⟨y, m, d⟩ := ymd
    rw [hp] at h
    dsimp only at h
    by_cases hcond : (decide (1 ≤ m) && decide (m ≤ 12) && decide (1 ≤ d)
        && decide (d ≤ daysInMonth y m)) = true
    · rw [if_pos hcond] at h
      exact ⟨epochDay y m d, (Option.some.inj h).symm⟩
    · rw [if_neg hcond] at h
      cases h

/-- Every parse result is a whole number of days (valid dates give their
civil day, the `NaN` placeholder is `0`). -/
lemma parseMs_mul (s : List Char) : ∃ d : Int, parseMs s = d * DAY_MS := by
  unfold parseMs
  cases hdp : dateParse s with
  | none => exact ⟨0, by simp⟩
  | some t =>
    obtain ⟨d, hd⟩ := dateParse_mul s t hdp
    exact ⟨d, by simp [hd]⟩

instance : IsTotal GoldAnchor (fun a b => parseMs a.date ≤ parseMs b.date) :=
  ⟨fun a b => le_total _ _⟩

instance : IsTrans GoldAnchor (fun a b => parseMs a.date ≤ parseMs b.date) :=
  ⟨fun _ _ _ => le_trans⟩

instance : IsTrans GoldAnchor (fun a b => parseMs a.date < parseMs b.date) :=
  ⟨fun _ _ _ => lt_trans⟩

/-- Times produced by the densifier loop with skipping on: one point per day
strictly between the head anchor's day and the last anchor's day,
inclusive of the last. -/
lemma buildLoop_times :
    ∀ (rest : List GoldAnchor) (s : GoldAnchor) (a : Int),
      parseMs s.date = a * DAY_MS →
      List.Chain (fun x y => parseMs x.date < parseMs y.date) s rest →
      ∀ b : Int,
        parseMs ((s :: rest).getLast (List.cons_ne_nil s rest)).date = b * DAY_MS →
        a ≤ b ∧
        (buildLoop s rest false).map GoldPoint.time
          = (List.range (b - a).toNat).map
              (fun (j : Nat) => (a + 1 + (j : Int)) * DAY_MS) := by
  intro rest
  induction rest with
  | nil =>
    intro s a ha _ b hb
    rw [List.getLast_singleton] at hb
    have hab : a = b := mul_right_cancel₀ DAY_MS_ne (ha ▸ hb)
    subst hab
    refine ⟨le_refl a, ?_⟩
    simp [buildLoop]
  | cons e rest ih =>
    intro s a ha hchain b hb
    obtain ⟨hse, hchain2⟩ := List.chain_cons.mp hchain
    obtain ⟨c, hc⟩ := parseMs_mul e.date
    have hac : a < c := by
      rw [ha, hc] at hse
      exact (mul_lt_mul_right DAY_MS_pos).mp hse
    rw [List.getLast_cons_cons] at hb
    obtain ⟨hcb, hloop⟩ := ih e c hc hchain2 b hb
    refine ⟨le_trans (le_of_lt hac) hcb, ?_⟩
    have hstep : buildLoop s (e :: rest) false
        = segPoints (parseMs s.date) s.value e.value
            (daySpanOf (parseMs s.date) (parseMs e.date)).toNat true
          ++ buildLoop e rest false := by
      simp [buildLoop]
    rw [hstep, List.map_append, hloop, ha, hc, daySpanOf_mul a c hac,
      segPoints_true_times]
    have hm : (((c - a).toNat : Nat) : Int) = c - a := Int.toNat_of_nonneg (by omega)
    have hsplit : (b - a).toNat = (c - a).toNat + (b - c).toNat := by omega
    rw [hsplit, List.range_add, List.map_append, List.map_map]
    congr 1
    · apply List.map_congr_left
      intro j _
      push_cast
      ring
    · apply List.map_congr_left
      intro j _
      simp only [Function.comp_apply]
      push_cast [hm]
      ring

/-- Every anchor after the head is represented in the skipping loop's output
by a point at its own parsed time carrying exactly its value. -/
lemma buildLoop_values :
    ∀ (rest : List GoldAnchor) (s : GoldAnchor),
      List.Chain (fun x y => parseMs x.date < parseMs y.date) s rest →
      ∀ x ∈ rest, ∃ p ∈ buildLoop s rest false,
        p.time = parseMs x.date ∧ p.value = x.value := by
  intro rest
  induction rest with
  | nil => intro s _ x hx; cases hx
  | cons e rest ih =>
    intro s hchain x hx
    obtain ⟨hse, hchain2⟩ := List.chain_cons.mp hchain
    obtain ⟨a, ha⟩ := parseMs_mul s.date
    obtain ⟨c, hc⟩ := parseMs_mul e.date
    have hac : a < c := by
      rw [ha, hc] at hse
      exact (mul_lt_mul_right DAY_MS_pos).mp hse
    have hstep : buildLoop s (e :: rest) false
        = segPoints (parseMs s.date) s.value e.value
            (daySpanOf (parseMs s.date) (parseMs e.date)).toNat true
          ++ buildLoop e rest false := by
      simp [buildLoop]
    rcases List.mem_cons.mp hx with rfl | hx2
    · have hm0 : (daySpanOf (parseMs s.date) (parseMs x.date)).toNat ≠ 0 := by
        rw [ha, hc, daySpanOf_mul a c hac]
        omega
      obtain ⟨p, hp, hpt, hpv⟩ :=
        segPoints_true_mem_last (parseMs s.date) s.value x.value _ hm0
      refine ⟨p, ?_, ?_, hpv⟩
      · rw [hstep]
        exact List.mem_append_left _ hp
      · rw [hpt, ha, hc, daySpanOf_mul a c hac, Int.toNat_of_nonneg (by omega)]
        ring
    · obtain ⟨p, hp, hpt, hpv⟩ := ih e hchain2 x hx2
      refine ⟨p, ?_, hpt, hpv⟩
      rw [hstep]
      exact List.mem_append_right _ hp

/-- The single-anchor special case of the densifier. -/
lemma buildSeries_single (a : GoldAnchor) :
    buildSeriesFromAnchors [a]
      = [{ date := a.date, value := a.value, time := parseMs a.date }] :=
  rfl

/-- Sorting, permutation and strictness facts shared by the densifier
theorems: with pairwise-distinct parsed dates, the sorted anchor list is
strictly increasing in parsed time. -/
lemma sortAnchors_facts (anchors : List GoldAnchor)
    (hnodup : (anchors.map (fun a => parseMs a.date)).Nodup) :
    (sortAnchors anchors).Perm anchors ∧
    (sortAnchors anchors).Pairwise (fun x y => parseMs x.date < parseMs y.date) := by
  have hperm : (sortAnchors anchors).Perm anchors := by
    unfold sortAnchors
    exact List.perm_insertionSort _ _
  have hsorted : List.Sorted (fun a b => parseMs a.date ≤ parseMs b.date)
      (sortAnchors anchors) := by
    unfold sortAnchors
    exact List.sorted_insertionSort _ _
  have hnods : ((sortAnchors anchors).map (fun a => parseMs a.date)).Nodup :=
    (hperm.map (fun a => parseMs a.date)).nodup_iff.mpr hnodup
  refine ⟨hperm, ?_⟩
  have hand := List.Pairwise.and hsorted (pairwise_ne_of_nodup_map hnods)
  exact hand.imp (fun h => lt_of_le_of_ne h.1 h.2)

/-- Splitting an arithmetic progression of daily times in two. -/
lemma range_map_split (t0 : Int) (m k : Nat) :
    (List.range (m + k)).map (fun (j : Nat) => t0 + (j : Int) * DAY_MS)
      = (List.range m).map (fun (j : Nat) => t0 + (j : Int) * DAY_MS)
        ++ (List.range k).map (fun (j : Nat) => t0 + ((m + j : Nat) : Int) * DAY_MS) := by
  rw [List.range_add, List.map_append, List.map_map]
  congr 1

/-- Master time lemma: under pairwise-distinct parsed dates, the densified
series' times are exactly one UTC midnight per day from the earliest
anchor's day to the latest anchor's day. -/
lemma buildSeries_times_master (anchors : List GoldAnchor) (a0 aN : GoldAnchor)
    (hnodup : (anchors.map (fun a => parseMs a.date)).Nodup)
    (hhead : (sortAnchors anchors).head? = some a0)
    (hlast : (sortAnchors anchors).getLast? = some aN) :
    (buildSeriesFromAnchors anchors).map GoldPoint.time
      = (List.range ((parseMs aN.date - parseMs a0.date) / DAY_MS).toNat.succ).map
          (fun (j : Nat) => parseMs a0.date + (j : Int) * DAY_MS) := by
  obtain ⟨hperm, hpairlt⟩ := sortAnchors_facts anchors hnodup
  cases hs : sortAnchors anchors with
  | nil => rw [hs] at hhead; cases hhead
  | cons s rest =>
    rw [hs] at hhead hlast hpairlt
    have ha0 : s = a0 := Option.some.inj (by simpa using hhead)
    subst ha0
    cases rest with
    | nil =>
      have haN : s = aN := Option.some.inj (by simpa using hlast)
      subst haN
      have hbuild : buildSeriesFromAnchors anchors
          = [{ date := s.date, value := s.value, time := parseMs s.date }] := by
        unfold buildSeriesFromAnchors
        rw [hs]
      rw [hbuild]
      simp [List.range_succ]
    | cons e rest2 =>
      have hne : (s :: e :: rest2 : List GoldAnchor) ≠ [] := List.cons_ne_nil _ _
      have haN : (s :: e :: rest2).getLast hne = aN := by
        rw [List.getLast?_eq_getLast _ hne] at hlast
        exact Option.some.inj hlast
      obtain ⟨a, ha⟩ := parseMs_mul s.date
      obtain ⟨c, hc⟩ := parseMs_mul e.date
      obtain ⟨b, hb⟩ := parseMs_mul aN.date
      have hchain : List.Chain (fun x y => parseMs x.date < parseMs y.date)
          s (e :: rest2) := List.chain_iff_pairwise.mpr hpairlt
      obtain ⟨hse, hchain2⟩ := List.chain_cons.mp hchain
      have hac : a < c := by
        rw [ha, hc] at hse
        exact (mul_lt_mul_right DAY_MS_pos).mp hse
      have hblast : parseMs ((e :: rest2).getLast
          (List.cons_ne_nil e rest2)).date = b * DAY_MS := by
        rw [← List.getLast_cons_cons s e rest2, haN]
        exact hb
      obtain ⟨hcb, hloop⟩ := buildLoop_times rest2 e c hc hchain2 b hblast
      have hbuild : buildSeriesFromAnchors anchors = buildLoop s (e :: rest2) true := by
        unfold buildSeriesFromAnchors
        rw [hs]
      have hstep : buildLoop s (e :: rest2) true
          = segPoints (parseMs s.date) s.value e.value
              (daySpanOf (parseMs s.date) (parseMs e.date)).toNat false
            ++ buildLoop e rest2 false := by
        simp [buildLoop]
      rw [hbuild, hstep, List.map_append, hloop, ha, hc,
        daySpanOf_mul a c hac, segPoints_false_times, hb]
      have hdiv : (b * DAY_MS - a * DAY_MS) / DAY_MS = b - a := by
        rw [← sub_mul, Int.mul_ediv_cancel _ DAY_MS_ne]
      rw [hdiv]
      have hm : (((c - a).toNat : Nat) : Int) = c - a := Int.toNat_of_nonneg (by omega)
      have hsplit : (b - a).toNat.succ = ((c - a).toNat + 1) + (b - c).toNat := by
        omega
      rw [hsplit,
        range_map_split (a * DAY_MS) ((c - a).toNat + 1) ((b - c).toNat)]
      congr 1
      apply List.map_congr_left
      intro j _
      push_cast [hm]
      ring

/-- The densified series is a gap-free daily chain. -/
lemma buildSeries_chain (anchors : List GoldAnchor) (a0 aN : GoldAnchor)
    (hnodup : (anchors.map (fun a => parseMs a.date)).Nodup)
    (hhead : (sortAnchors anchors).head? = some a0)
    (hlast : (sortAnchors anchors).getLast? = some aN) :
    List.Chain' (fun p q => q.time = p.time + DAY_MS)
      (buildSeriesFromAnchors anchors) := by
  have hmap := buildSeries_times_master anchors a0 aN hnodup hhead hlast
  have hchain : List.Chain' (fun t u => u = t + DAY_MS)
      ((buildSeriesFromAnchors anchors).map GoldPoint.time) := by
    rw [hmap, List.chain'_map, List.chain'_range_succ]
    intro i _
    push_cast
    ring
  exact (List.chain'_map GoldPoint.time).mp hchain

/-- Master value lemma: every anchor is represented in the densified series
by a point at its own parsed time carrying exactly its value. -/
lemma buildSeries_values_master (anchors : List GoldAnchor)
    (hnodup : (anchors.map (fun a => parseMs a.date)).Nodup) :
    ∀ x ∈ anchors, ∃ p ∈ buildSeriesFromAnchors anchors,
      p.time = parseMs x.date ∧ p.value = x.value := by
  obtain ⟨hperm, hpairlt⟩ := sortAnchors_facts anchors hnodup
  intro x hx
  have hxs : x ∈ sortAnchors anchors := hperm.mem_iff.mpr hx
  cases hs : sortAnchors anchors with
  | nil => rw [hs] at hxs; cases hxs
  | cons s rest =>
    rw [hs] at hxs hpairlt
    cases rest with
    | nil =>
      rcases List.mem_singleton.mp hxs with rfl
      have hanch : anchors = [x] := by
        have hp := hperm
        rw [hs] at hp
        exact List.perm_singleton.mp hp.symm
      rw [hanch, buildSeries_single]
      exact ⟨_, List.mem_singleton_self _, rfl, rfl⟩
    | cons e rest2 =>
      have hchain : List.Chain (fun a b => parseMs a.date < parseMs b.date)
          s (e :: rest2) := List.chain_iff_pairwise.mpr hpairlt
      obtain ⟨hse, hchain2⟩ := List.chain_cons.mp hchain
      obtain ⟨a, ha⟩ := parseMs_mul s.date
      obtain ⟨c, hc⟩ := parseMs_mul e.date
      have hac : a < c := by
        rw [ha, hc] at hse
        exact (mul_lt_mul_right DAY_MS_pos).mp hse
      have hbuild : buildSeriesFromAnchors anchors = buildLoop s (e :: rest2) true := by
        unfold buildSeriesFromAnchors
        rw [hs]
      have hstep : buildLoop s (e :: rest2) true
          = segPoints (parseMs s.date) s.value e.value
              (daySpanOf (parseMs s.date) (parseMs e.date)).toNat false
            ++ buildLoop e rest2 false := by
        simp [buildLoop]
      rw [hbuild, hstep]
      rcases List.mem_cons.mp hxs with rfl | hx2
      · obtain ⟨p, hp, hpt, hpv⟩ :=
          segPoints_false_mem_start (parseMs x.date) x.value e.value
            (daySpanOf (parseMs x.date) (parseMs e.date)).toNat
        exact ⟨p, List.mem_append_left _ hp, hpt, hpv⟩
      rcases List.mem_cons.mp hx2 with rfl | hx3
      · have hm0 : (daySpanOf (parseMs s.date) (parseMs x.date)).toNat ≠ 0 := by
          rw [ha, hc, daySpanOf_mul a c hac]
          omega
        obtain ⟨p, hp, hpt, hpv⟩ :=
          segPoints_false_mem_last (parseMs s.date) s.value x.value _ hm0
        refine ⟨p, List.mem_append_left _ hp, ?_, hpv⟩
        rw [hpt, ha, hc, daySpanOf_mul a c hac, Int.toNat_of_nonneg (by omega)]
        ring
      · obtain ⟨p, hp, hpt, hpv⟩ := buildLoop_values rest2 e hchain2 x hx3
        exact ⟨p, List.mem_append_right _ hp, hpt, hpv⟩

/-- The densified series' times are pairwise distinct. -/
lemma buildSeries_times_nodup (anchors : List GoldAnchor) (a0 aN : GoldAnchor)
    (hnodup : (anchors.map (fun a => parseMs a.date)).Nodup)
    (hhead : (sortAnchors anchors).head? = some a0)
    (hlast : (sortAnchors anchors).getLast? = some aN) :
    ((buildSeriesFromAnchors anchors).map GoldPoint.time).Nodup := by
  rw [buildSeries_times_master anchors a0 aN hnodup hhead hlast]
  refine List.Nodup.map ?_ (List.nodup_range _)
  intro j1 j2 h
  have h2 : (j1 : Int) * DAY_MS = (j2 : Int) * DAY_MS := by
    have := add_left_cancel h
    exact this
  have h3 : (j1 : Int) = (j2 : Int) := mul_right_cancel₀ DAY_MS_ne h2
  exact_mod_cast h3

/-- C2: on anchors with pairwise-distinct valid calendar days, the densifier
emits exactly one point per calendar day from the earliest to the latest
anchor day (times form the arithmetic progression of UTC midnights stepping
by 86,400,000 ms, hence strictly increasing), and a single anchor passes
through unchanged. -/
theorem C2_densifier (anchors : List GoldAnchor) (a0 aN : GoldAnchor)
    (hvalid : ∀ a ∈ anchors, (dateParse a.date).isSome)
    (hnodup : (anchors.map (fun a => parseMs a.date)).Nodup)
    (hhead : (sortAnchors anchors).head? = some a0)
    (hlast : (sortAnchors anchors).getLast? = some aN) :
    (buildSeriesFromAnchors anchors).map GoldPoint.time
      = (List.range ((parseMs aN.date - parseMs a0.date) / DAY_MS).toNat.succ).map
          (fun (j : Nat) => parseMs a0.date + (j : Int) * DAY_MS)
    ∧ List.Chain' (fun p q => q.time = p.time + DAY_MS)
        (buildSeriesFromAnchors anchors)
    ∧ ∀ a, anchors = [a] →
        buildSeriesFromAnchors anchors
          = [{ date := a.date, value := a.value, time := parseMs a.date }] := by
  refine ⟨buildSeries_times_master anchors a0 aN hnodup hhead hlast,
    buildSeries_chain anchors a0 aN hnodup hhead hlast, ?_⟩
  intro a h
  rw [h, buildSeries_single]

/-- C2 witness: two anchors two days apart densify to the three UTC
midnights of 2024-01-01 through 2024-01-03. -/
theorem C2_densifier_witness :
    (buildSeriesFromAnchors
        [⟨js "2024-01-01", 2000⟩, ⟨js "2024-01-03", 2100⟩]).map GoldPoint.time
      = (List.range ((parseMs (js "2024-01-03") - parseMs (js "2024-01-01"))
            / DAY_MS).toNat.succ).map
          (fun (j : Nat) => parseMs (js "2024-01-01") + (j : Int) * DAY_MS)
    ∧ List.Chain' (fun p q => q.time = p.time + DAY_MS)
        (buildSeriesFromAnchors
          [⟨js "2024-01-01", 2000⟩, ⟨js "2024-01-03", 2100⟩])
    ∧ ∀ a : GoldAnchor,
        [(⟨js "2024-01-01", 2000⟩ : GoldAnchor), ⟨js "2024-01-03", 2100⟩] = [a] →
        buildSeriesFromAnchors [⟨js "2024-01-01", 2000⟩, ⟨js "2024-01-03", 2100⟩]
          = [{ date := a.date, value := a.value, time := parseMs a.date }] :=
  C2_densifier [⟨js "2024-01-01", 2000⟩, ⟨js "2024-01-03", 2100⟩]
    ⟨js "2024-01-01", 2000⟩ ⟨js "2024-01-03", 2100⟩
    (by decide) (by decide) (by decide) (by decide)

/-- C7: on anchors with pairwise-distinct valid calendar days, the densified
point at each anchor's own day carries exactly that anchor's value (such a
point exists and every point at that time agrees), because the interpolation
formula is exact at ratio 0 and ratio 1. -/
theorem C7_anchor_boundary_values (anchors : List GoldAnchor)
    (hvalid : ∀ a ∈ anchors, (dateParse a.date).isSome)
    (hnodup : (anchors.map (fun a => parseMs a.date)).Nodup) :
    (∀ x ∈ anchors, ∃ p ∈ buildSeriesFromAnchors anchors,
        p.time = parseMs x.date ∧ p.value = x.value)
    ∧ (∀ x ∈ anchors, ∀ p ∈ buildSeriesFromAnchors anchors,
        p.time = parseMs x.date → p.value = x.value)
    ∧ (∀ sv ev : ℚ, interp sv ev 0 = sv ∧ interp sv ev 1 = ev) := by
  refine ⟨buildSeries_values_master anchors hnodup, ?_, interp_boundary⟩
  intro x hx p hp hpt
  have hne : sortAnchors anchors ≠ [] := by
    intro h0
    obtain ⟨hperm, _⟩ := sortAnchors_facts anchors hnodup
    rw [h0] at hperm
    rw [hperm.symm.eq_nil] at hx
    cases hx
  have hnodupT := buildSeries_times_nodup anchors _ _ hnodup
    (List.head?_eq_head hne) (List.getLast?_eq_getLast _ hne)
  obtain ⟨q, hq, hqt, hqv⟩ := buildSeries_values_master anchors hnodup x hx
  have hpq : p = q := List.inj_on_of_nodup_map hnodupT hp hq (by rw [hpt, hqt])
  rw [hpq, hqv]

/-- C7 witness: the anchor-value properties at the two-anchor example. -/
theorem C7_anchor_boundary_values_witness :
    (∀ x ∈ [(⟨js "2024-01-01", 2000⟩ : GoldAnchor), ⟨js "2024-01-03", 2100⟩],
        ∃ p ∈ buildSeriesFromAnchors
            [⟨js "2024-01-01", 2000⟩, ⟨js "2024-01-03", 2100⟩],
          p.time = parseMs x.date ∧ p.value = x.value)
    ∧ (∀ x ∈ [(⟨js "2024-01-01", 2000⟩ : GoldAnchor), ⟨js "2024-01-03", 2100⟩],
        ∀ p ∈ buildSeriesFromAnchors
            [⟨js "2024-01-01", 2000⟩, ⟨js "2024-01-03", 2100⟩],
          p.time = parseMs x.date → p.value = x.value)
    ∧ (∀ sv ev : ℚ, interp sv ev 0 = sv ∧ interp sv ev 1 = ev) :=
  C7_anchor_boundary_values
    [⟨js "2024-01-01", 2000⟩, ⟨js "2024-01-03", 2100⟩] (by decide) (by decide)

/-! ### Helper lemmas for the series assembler -/

/-- `loadSeriesFile` never changes the anchors. -/
lemma loadSeriesFile_anchors (file sf : GoldSeriesFile)
    (h : loadSeriesFile file = some sf) : sf.anchors = file.anchors := by
  unfold loadSeriesFile at h
  by_cases hemp : file.anchors.isEmpty = true
  · rw [if_pos hemp] at h
    cases h
  · rw [if_neg hemp] at h
    rw [← Option.some.inj h]

/-- The complete unit-converted densified series that the assembler derives
from the snapshot before any range slicing (`series.map` over
`unitMultiplier` in `getGoldData`). -/
def convSeries (file : GoldSeriesFile) (unit : List Char) : List GoldPoint :=
  (buildSeriesFromAnchors file.anchors).map
    (fun point => { point with value := point.value * unitMultiplier unit })

/-- Inversion of a successful `getGoldData` call: the view model's fields in
terms of the unit-converted densified series. -/
lemma getGoldData_inv (file : GoldSeriesFile) (range : GoldRangeConfig)
    (unit : List Char) (d : GoldData)
    (h : getGoldData file range unit = some d) :
    ∃ latest : GoldPoint,
      (convSeries file unit).getLast? = some latest ∧
      d.latest = latest ∧
      d.changes = { day1 := computeChange (convSeries file unit) 1,
                    day7 := computeChange (convSeries file unit) 7,
                    day30 := computeChange (convSeries file unit) 30 } ∧
      d.rangePoints = sliceRange (convSeries file unit) range latest ∧
      d.rangeStats = (computeHighLow (sliceRange (convSeries file unit) range latest)).getD
        { low := latest.value, high := latest.value } ∧
      d.yearStats = (computeHighLow (sliceRange (convSeries file unit)
          { recentRange with days := some 365 } latest)).getD d.rangeStats := by
  have hconv : (buildSeriesFromAnchors file.anchors).map
      (fun point => { point with value := point.value * unitMultiplier unit })
      = convSeries file unit := rfl
  unfold getGoldData at h
  cases hls : loadSeriesFile file with
  | none => rw [hls] at h; cases h
  | some sf =>
    rw [hls] at h
    dsimp only at h
    rw [loadSeriesFile_anchors file sf hls, hconv] at h
    cases hgl : (convSeries file unit).getLast? with
    | none =>
      rw [hgl] at h
      cases h
    | some latest =>
      rw [hgl] at h
      dsimp only at h
      refine ⟨latest, rfl, ?_⟩
      rw [← Option.some.inj h]
      exact ⟨rfl, rfl, rfl, rfl, rfl⟩

/-- Mapping preserves emptiness. -/
lemma map_isEmpty {α β : Type} (f : α → β) (l : List α) :
    (l.map f).isEmpty = l.isEmpty := by
  cases l <;> rfl

/-- `sliceRange` only inspects dates and times, so it commutes with any
value-only transformation of the points. -/
lemma sliceRange_map_value (g : ℚ → ℚ) (points : List GoldPoint)
    (range : GoldRangeConfig) (latest : GoldPoint) :
    sliceRange (points.map (fun p => { p with value := g p.value })) range
      { latest with value := g latest.value }
      = (sliceRange points range latest).map (fun p => { p with value := g p.value }) := by
  have hfilter : ∀ q : GoldPoint → Bool,
      (points.map (fun p => { p with value := g p.value })).filter q
        = (points.filter (fun p => q { p with value := g p.value })).map
            (fun p => { p with value := g p.value }) := by
    intro q
    rw [List.filter_map]
    rfl
  unfold sliceRange
  rw [map_isEmpty]
  by_cases h0 : points.isEmpty = true
  · rw [if_pos h0, if_pos h0]
    rfl
  · rw [if_neg h0, if_neg h0]
    by_cases h1 : range.kind = .recent
    · rw [if_pos h1, if_pos h1]
      dsimp only
      rw [hfilter, map_isEmpty,
        apply_ite (List.map (fun p : GoldPoint => ({ p with value := g p.value } : GoldPoint)))]
    · rw [if_neg h1, if_neg h1]
      by_cases h2 : (range.kind = .month && truthy range.year && truthy range.month) = true
      · rw [if_pos h2, if_pos h2]
        dsimp only
        rw [hfilter, map_isEmpty,
          apply_ite (List.map (fun p : GoldPoint => ({ p with value := g p.value } : GoldPoint)))]
      · rw [if_neg h2, if_neg h2]
        by_cases h3 : (range.kind = .year && truthy range.year) = true
        · rw [if_pos h3, if_pos h3]
          dsimp only
          rw [hfilter, map_isEmpty,
            apply_ite (List.map (fun p : GoldPoint => ({ p with value := g p.value } : GoldPoint)))]
        · rw [if_neg h3, if_neg h3]

/-- The min/max scan commutes with scaling all values by a positive
constant. -/
lemma foldl_hlStep_map_mul (k : ℚ) (hk : 0 < k) :
    ∀ (l : List GoldPoint) (acc : GoldStats),
      (l.map (fun p => { p with value := p.value * k })).foldl hlStep
          { low := acc.low * k, high := acc.high * k }
        = { low := (l.foldl hlStep acc).low * k,
            high := (l.foldl hlStep acc).high * k } := by
  intro l
  induction l with
  | nil => intro acc; rfl
  | cons p l ih =>
    intro acc
    simp only [List.map_cons, List.foldl_cons]
    have hstep : hlStep { low := acc.low * k, high := acc.high * k }
        { p with value := p.value * k }
        = { low := (hlStep acc p).low * k, high := (hlStep acc p).high * k } := by
      unfold hlStep
      dsimp only
      rw [apply_ite (fun x : ℚ => x * k), apply_ite (fun x : ℚ => x * k)]
      congr 1
      · exact if_congr (mul_lt_mul_right hk) rfl rfl
      · exact if_congr (mul_lt_mul_right hk) rfl rfl
    rw [hstep]
    exact ih (hlStep acc p)

/-- `computeHighLow` commutes with scaling all values by a positive
constant. -/
lemma computeHighLow_map_mul (k : ℚ) (hk : 0 < k) (points : List GoldPoint) :
    computeHighLow (points.map (fun p => { p with value := p.value * k }))
      = (computeHighLow points).map
          (fun s => { low := s.low * k, high := s.high * k }) := by
  cases points with
  | nil => rfl
  | cons p l =>
    show some (((p :: l).map (fun q => { q with value := q.value * k })).foldl hlStep
        { low := p.value * k, high := p.value * k })
      = some { low := ((p :: l).foldl hlStep { low := p.value, high := p.value }).low * k,
               high := ((p :: l).foldl hlStep { low := p.value, high := p.value }).high * k }
    rw [foldl_hlStep_map_mul k hk (p :: l) { low := p.value, high := p.value }]

/-- `getD` after scaling both the option and the default. -/
lemma getD_map_mul (o : Option GoldStats) (dflt : GoldStats) (k : ℚ) :
    (o.map (fun s : GoldStats =>
        ({ low := s.low * k, high := s.high * k } : GoldStats))).getD
        ({ low := dflt.low * k, high := dflt.high * k } : GoldStats)
      = ({ low := (o.getD dflt).low * k, high := (o.getD dflt).high * k } : GoldStats) := by
  cases o <;> rfl

/-- With unit `"oz"` the conversion is the identity. -/
lemma convSeries_oz (file : GoldSeriesFile) :
    convSeries file (js "oz") = buildSeriesFromAnchors file.anchors := by
  unfold convSeries
  have h1 : unitMultiplier (js "oz") = 1 := by
    unfold unitMultiplier
    rw [if_neg (by decide)]
  rw [h1]
  have hid : (fun point : GoldPoint =>
      ({ point with value := point.value * 1 } : GoldPoint)) = id := by
    funext p
    simp
  rw [hid, List.map_id]

/-- With unit `"g"` the conversion scales every value by the reciprocal
gram ratio. -/
lemma convSeries_g (file : GoldSeriesFile) :
    convSeries file (js "g")
      = (buildSeriesFromAnchors file.anchors).map
          (fun p => { p with value := p.value * (1 / GRAMS_PER_OUNCE) }) := by
  unfold convSeries unitMultiplier
  rfl

/-- C5: the assembler computes the 1/7/30-day changes over the complete
unit-converted densified series — they are identical for any two requested
ranges — and the range statistics over the already-converted range slice, so
switching the unit from ounces to grams divides every range and year
statistic by the gram ratio. -/
theorem C5_assembler :
    (∀ (file : GoldSeriesFile) (r1 r2 : GoldRangeConfig) (unit : List Char)
        (d1 d2 : GoldData),
      getGoldData file r1 unit = some d1 → getGoldData file r2 unit = some d2 →
      d1.changes = d2.changes ∧
      d1.changes.day1 = computeChange (convSeries file unit) 1 ∧
      d1.changes.day7 = computeChange (convSeries file unit) 7 ∧
      d1.changes.day30 = computeChange (convSeries file unit) 30 ∧
      d1.rangeStats = (computeHighLow d1.rangePoints).getD
        { low := d1.latest.value, high := d1.latest.value }) ∧
    (∀ (file : GoldSeriesFile) (range : GoldRangeConfig) (dOz dG : GoldData),
      getGoldData file range (js "oz") = some dOz →
      getGoldData file range (js "g") = some dG →
      dG.rangeStats.low = dOz.rangeStats.low / GRAMS_PER_OUNCE ∧
      dG.rangeStats.high = dOz.rangeStats.high / GRAMS_PER_OUNCE ∧
      dG.yearStats.low = dOz.yearStats.low / GRAMS_PER_OUNCE ∧
      dG.yearStats.high = dOz.yearStats.high / GRAMS_PER_OUNCE) := by
  constructor
  · intro file r1 r2 unit d1 d2 h1 h2
    obtain ⟨l1, _, hlat1, hch1, hrp1, hrs1, _⟩ := getGoldData_inv file r1 unit d1 h1
    obtain ⟨l2, _, _, hch2, _, _, _⟩ := getGoldData_inv file r2 unit d2 h2
    refine ⟨by rw [hch1, hch2], by rw [hch1], by rw [hch1], by rw [hch1], ?_⟩
    rw [hrs1, hrp1, hlat1]
  · intro file range dOz dG hOz hG
    obtain ⟨lOz, hlOz, hlatOz, _, _, hrsOz, hysOz⟩ :=
      getGoldData_inv file range (js "oz") dOz hOz
    obtain ⟨lG, hlG, hlatG, _, _, hrsG, hysG⟩ :=
      getGoldData_inv file range (js "g") dG hG
    have hk : (0 : ℚ) < 1 / GRAMS_PER_OUNCE := by
      norm_num [GRAMS_PER_OUNCE]
    have hconv : convSeries file (js "g")
        = (convSeries file (js "oz")).map
            (fun p => { p with value := p.value * (1 / GRAMS_PER_OUNCE) }) := by
      rw [convSeries_oz, convSeries_g]
    have hlastG : lG = { lOz with value := lOz.value * (1 / GRAMS_PER_OUNCE) } := by
      rw [hconv, List.getLast?_map, hlOz] at hlG
      exact (Option.some.inj hlG).symm
    have hscale : ∀ r : GoldRangeConfig,
        computeHighLow (sliceRange (convSeries file (js "g")) r lG)
          = (computeHighLow (sliceRange (convSeries file (js "oz")) r lOz)).map
              (fun s : GoldStats =>
                ({ low := s.low * (1 / GRAMS_PER_OUNCE),
                   high := s.high * (1 / GRAMS_PER_OUNCE) } : GoldStats)) := by
      intro r
      rw [hconv, hlastG,
        sliceRange_map_value (fun v => v * (1 / GRAMS_PER_OUNCE))
          (convSeries file (js "oz")) r lOz,
        computeHighLow_map_mul (1 / GRAMS_PER_OUNCE) hk]
    have hrsG2 : dG.rangeStats
        = ({ low := dOz.rangeStats.low * (1 / GRAMS_PER_OUNCE),
             high := dOz.rangeStats.high * (1 / GRAMS_PER_OUNCE) } : GoldStats) := by
      rw [hrsG, hscale range, hlastG]
      dsimp only
      rw [getD_map_mul
        (computeHighLow (sliceRange (convSeries file (js "oz")) range lOz))
        { low := lOz.value, high := lOz.value } (1 / GRAMS_PER_OUNCE), hrsOz]
    have hysG2 : dG.yearStats
        = ({ low := dOz.yearStats.low * (1 / GRAMS_PER_OUNCE),
             high := dOz.yearStats.high * (1 / GRAMS_PER_OUNCE) } : GoldStats) := by
      rw [hysG, hscale { recentRange with days := some 365 }, hrsG2,
        getD_map_mul
          (computeHighLow (sliceRange (convSeries file (js "oz"))
            { recentRange with days := some 365 } lOz))
          dOz.rangeStats (1 / GRAMS_PER_OUNCE), ← hysOz]
    refine ⟨?_, ?_, ?_, ?_⟩
    · rw [hrsG2]
      exact mul_one_div _ _
    · rw [hrsG2]
      exact mul_one_div _ _
    · rw [hysG2]
      exact mul_one_div _ _
    · rw [hysG2]
      exact mul_one_div _ _

/-- C5 witness: on a concrete snapshot, requesting the recent range and a
year range with no data yields identical change blocks. -/
theorem C5_assembler_witness :
    (getGoldData ⟨js "snap", js "2024-01-05", [⟨js "2024-01-05", 2000⟩]⟩
        recentRange (js "oz")).map GoldData.changes
      = (getGoldData ⟨js "snap", js "2024-01-05", [⟨js "2024-01-05", 2000⟩]⟩
          { key := js "year-2030", label := js "2030", kind := .year,
            year := some (js "2030") }
          (js "oz")).map GoldData.changes := by
  have h1 : (getGoldData ⟨js "snap", js "2024-01-05", [⟨js "2024-01-05", 2000⟩]⟩
      recentRange (js "oz")).isSome := by decide
  have h2 : (getGoldData ⟨js "snap", js "2024-01-05", [⟨js "2024-01-05", 2000⟩]⟩
      { key := js "year-2030", label := js "2030", kind := .year,
        year := some (js "2030") }
      (js "oz")).isSome := by decide
  obtain ⟨d1, hd1⟩ := Option.isSome_iff_exists.mp h1
  obtain ⟨d2, hd2⟩ := Option.isSome_iff_exists.mp h2
  rw [hd1, hd2]
  exact congrArg some
    (C5_assembler.1 ⟨js "snap", js "2024-01-05", [⟨js "2024-01-05", 2000⟩]⟩
      recentRange
      { key := js "year-2030", label := js "2030", kind := .year,
        year := some (js "2030") }
      (js "oz") d1 d2 hd1 hd2).1
